import Mathlib

/-!
Verification development for the arxiv_watcher repository (src/main.py).

The development shallowly embeds the parts of `src/main.py` that the
specification's claims are about:

* the memoized, retry-wrapped classifier `Paper._interest_analysis`
  (lines 53-99) together with the accessors `interest_score`,
  `interest_tag`, `interest_justification` (lines 101-111), modelled as an
  explicit state machine over a cache field and an instrumented count of
  model calls and attempts;
* the top-level aggregation loop (lines 254-257) and the per-tag stable
  descending sort performed by `html_report` (lines 214-223).

Machine-level JSON values are restricted to the shapes the claims need
(integers and strings); a model response is either an exception
(transport error or unparseable body, raised before the cache is
written) or a parsed JSON object.
-/

namespace ArxivWatcher

/-- A JSON scalar value as it appears in the model's parsed response:
an integer (e.g. a score) or a string (e.g. a tag or justification). -/
inductive JValue where
  | jint : Int → JValue
  | jstr : String → JValue
deriving DecidableEq, Repr

/-- A parsed JSON object: an association list from field names to values,
as produced by `json.loads` on a JSON dictionary. -/
abbrev JObj := List (String × JValue)

/-- Field lookup on a parsed JSON object; `none` models a Python
`KeyError` on subscripting. -/
def jget : JObj → String → Option JValue
  | [], _ => none
  | (k, v) :: o, key => if k = key then some v else jget o key

/-- Outcome of one call to the language-model client, as observed by the
body of `Paper._interest_analysis`: either an exception raised before the
cache assignment on line 92 (transport error, rate limit, timeout, or a
`json.loads` failure on an unparseable body), or a successfully parsed
JSON object. -/
inductive CallResult where
  | failure : CallResult
  | parsed : JObj → CallResult
deriving DecidableEq, Repr

/-- The model client, indexed by the number of calls made so far: the
`i`-th call (0-based) returns `client i`. -/
abbrev Client := Nat → CallResult

/-- State of one `Paper` instance relevant to classification:
`cache` is the private field `self.__interest_analysis` (line 53),
`calls` counts invocations of `openai_client.chat.completions.create`
(line 62), and `attempts` counts executions of the decorated property
body (instrumentation for the tenacity retry loop). -/
structure RunState where
  cache : Option JObj
  calls : Nat
  attempts : Nat
deriving DecidableEq, Repr

/-- A freshly constructed `Paper`: empty cache, no calls made. -/
def initState : RunState := ⟨none, 0, 0⟩

/-- Check mirroring lines 95-97 of `src/main.py`: subscripting the cached
object with the three required keys; `true` iff none of the three
accesses would raise `KeyError`. -/
def hasRequiredKeys (o : JObj) : Bool :=
  (jget o "score").isSome && (jget o "tag").isSome && (jget o "justification").isSome

/-- One execution of the body of `Paper._interest_analysis`
(lines 60-99). If the cache is set, return it without any model call.
Otherwise call the model: an exception leaves the cache empty; a parsed
response is first assigned to the cache (line 92) and only then key
checked (lines 95-97), so a response missing a required key raises after
the cache has already been written. The second component is `some o`
when the body returns `o`, `none` when it raises. -/
def attemptOnce (client : Client) (s : RunState) : RunState × Option JObj :=
  match s.cache with
  | some o => (⟨some o, s.calls, s.attempts + 1⟩, some o)
  | none =>
    match client s.calls with
    | .failure => (⟨none, s.calls + 1, s.attempts + 1⟩, none)
    | .parsed o =>
      if hasRequiredKeys o then (⟨some o, s.calls + 1, s.attempts + 1⟩, some o)
      else (⟨some o, s.calls + 1, s.attempts + 1⟩, none)

/-- Result of one access to the retry-wrapped property: either a
returned judgment object, or the exception tenacity raises after retry
exhaustion (the specification's `ClassificationError`). -/
inductive PropResult where
  | success : JObj → PropResult
  | classificationError : PropResult
deriving DecidableEq, Repr

/-- The tenacity retry loop `@retry(stop=stop_after_attempt(5), ...)`
(lines 56-59) with the given remaining attempt budget: run the body; on
a raised exception retry while budget remains, and raise
`ClassificationError` once the budget is exhausted. -/
def retryGo (client : Client) : RunState → Nat → RunState × PropResult
  | s, 0 => (s, .classificationError)
  | s, fuel + 1 =>
    match attemptOnce client s with
    | (s', some o) => (s', .success o)
    | (s', none) => retryGo client s' fuel

/-- One access to the property `Paper._interest_analysis`: the retry
loop with a budget of 5 attempts (`stop_after_attempt(5)`). -/
def interestAnalysis (client : Client) (s : RunState) : RunState × PropResult :=
  retryGo client s 5

/-- Result of an accessor such as `Paper.interest_tag`: a value, a
`KeyError` raised by the subscript in the accessor itself (outside the
retry wrapper), or the propagated `ClassificationError`. -/
inductive AccessResult where
  | value : JValue → AccessResult
  | keyError : AccessResult
  | classificationError : AccessResult
deriving DecidableEq, Repr

/-- Subscripting the judgment object inside an accessor (outside the
retry wrapper): a missing key is a `KeyError`. -/
def accessResult (o : JObj) (k : String) : AccessResult :=
  match jget o k with
  | some v => .value v
  | none => .keyError

/-- One access `self._interest_analysis[k]` as performed by the
accessors on lines 101-111. -/
def access (k : String) (client : Client) (s : RunState) : RunState × AccessResult :=
  match interestAnalysis client s with
  | (s', .success o) => (s', accessResult o k)
  | (s', .classificationError) => (s', .classificationError)

/-- The property `Paper.interest_score` (lines 101-103). -/
def interest_score (client : Client) (s : RunState) : RunState × AccessResult :=
  access "score" client s

/-- The property `Paper.interest_tag` (lines 105-107). -/
def interest_tag (client : Client) (s : RunState) : RunState × AccessResult :=
  access "tag" client s

/-- The property `Paper.interest_justification` (lines 109-111). -/
def interest_justification (client : Client) (s : RunState) : RunState × AccessResult :=
  access "justification" client s

/-- A sequence of accessor invocations on the same paper, threading the
paper's state; used to express that repeated accesses make no further
model call. -/
def accessMany (ks : List String) (client : Client) (s : RunState) : RunState :=
  ks.foldl (fun st k => (access k client st).1) s

/-! Grouping structures: the `defaultdict(list)` on line 254, modelled as
an insertion-ordered association list (Python dictionaries preserve key
insertion order, and `list.append` adds at the end). -/

/-- The effect of `interesting[t].append(p)` on a `defaultdict(list)`:
append to the existing group for key `t`, or create a new group at the
end of the key order. -/
def addToGroup {κ β : Type} [DecidableEq κ] :
    List (κ × List β) → κ → β → List (κ × List β)
  | [], t, p => [(t, [p])]
  | (u, l) :: gs, t, p =>
    if u = t then (u, l ++ [p]) :: gs else (u, l) :: addToGroup gs t p

/-- The list held by a `defaultdict(list)` at key `t` (empty when the
key is absent). -/
def groupOf {κ β : Type} [DecidableEq κ] : List (κ × List β) → κ → List β
  | [], _ => []
  | (u, l) :: gs, t => if u = t then l else groupOf gs t

/-- A paper whose classification has succeeded with an integer score and
a string tag, together with its position in the feed; the data the
aggregation loop (lines 254-257) and the report sort (line 216) read
from each `Paper`. -/
structure JudgedPaper where
  idx : Nat
  score : Int
  tag : String
deriving DecidableEq, Repr

/-- The aggregation loop on lines 254-257 of `src/main.py`:
`if paper.interest_score > 3: interesting[paper.interest_tag].append(paper)`,
folded over the feed in order. -/
def aggregate (ps : List JudgedPaper) : List (String × List JudgedPaper) :=
  ps.foldl (fun gs p => if 3 < p.score then addToGroup gs p.tag p else gs) []

/-- Stable insertion for a descending sort on scores: the new element
goes before the first element whose score is not strictly greater, which
is the position Python's stable `sorted(..., reverse=True)` gives it. -/
def insertDesc (p : JudgedPaper) : List JudgedPaper → List JudgedPaper
  | [] => [p]
  | q :: qs => if q.score ≤ p.score then p :: q :: qs else q :: insertDesc p qs

/-- Stable descending sort by score, modelling
`sorted(papers, key=lambda paper: paper.interest_score, reverse=True)`
on line 216 of `src/main.py` (Python's sort is stable, and `reverse=True`
preserves the original order of elements with equal keys). -/
def sortDesc : List JudgedPaper → List JudgedPaper
  | [] => []
  | p :: ps => insertDesc p (sortDesc ps)

/-- The order in which the papers of tag group `t` are rendered by
`html_report` (lines 214-223): the group built by the aggregation loop,
stably sorted by descending score. -/
def renderedGroup (ps : List JudgedPaper) (t : String) : List JudgedPaper :=
  sortDesc (groupOf (aggregate ps) t)

/-! The top-level run (lines 251-260): classify each feed paper in
order, with an uncaught exception aborting the whole run before
`html_report` is called. -/

/-- Outcome of the body of one iteration of the aggregation loop for one
paper: `ok (some (t, o))` when the judgment `o` passed the threshold and
the paper is appended under tag `t`; `ok none` when the score was 3 or
lower; `err` when an uncaught exception is raised
(`ClassificationError` after retry exhaustion, a `KeyError` from an
accessor, or a `TypeError` comparing a non-integer score with 3). -/
inductive StepOut where
  | ok : Option (JValue × JObj) → StepOut
  | err : StepOut
deriving DecidableEq, Repr

/-- One iteration of the loop on lines 255-257 for a fresh `Paper` with
model behavior `client`: evaluate `paper.interest_score > 3` and, when
it holds, `paper.interest_tag`. -/
def classifyStep (client : Client) : StepOut :=
  match interestAnalysis client initState with
  | (_, .classificationError) => .err
  | (_, .success o) =>
    match jget o "score" with
    | none => .err
    | some (.jstr _) => .err
    | some (.jint n) =>
      if 3 < n then
        match jget o "tag" with
        | none => .err
        | some t => .ok (some (t, o))
      else .ok none

/-- Result of the whole run: either an uncaught exception aborted it
before `html_report` was called (no report file is written), or the
report is generated from the groups, keyed by tag and holding feed
indices in feed order. -/
inductive RunResult where
  | aborted : RunResult
  | report : List (JValue × List Nat) → RunResult
deriving DecidableEq, Repr

/-- The aggregation loop over the remaining feed, with the index of the
next paper and the groups built so far; the first component of the
result is the number of papers whose classification was attempted. -/
def aggLoop : List Client → Nat → List (JValue × List Nat) → Nat × RunResult
  | [], idx, gs => (idx, .report gs)
  | c :: cs, idx, gs =>
    match classifyStep c with
    | .err => (idx + 1, .aborted)
    | .ok none => aggLoop cs (idx + 1) gs
    | .ok (some (t, _)) => aggLoop cs (idx + 1) (addToGroup gs t idx)

/-- The top-level run over the feed (lines 254-260): the aggregation
loop from an empty `defaultdict`, followed by `html_report` only when no
exception escaped the loop. -/
def runMain (clients : List Client) : Nat × RunResult :=
  aggLoop clients 0 []

/-- The section keys of the rendered report: `html_report` writes one
`h2` section per key of the groups mapping, in key order (line 214). -/
def reportSections (gs : List (JValue × List Nat)) : List JValue :=
  gs.map Prod.fst

/-- The tag identifiers configured in the interest profile (the
`MANIFESTO` on lines 19-41 of `src/main.py`). -/
def configuredTags : List String := ["time-series", "causality", "llm-agents"]

/-! Concrete model behaviors used as witnesses and counterexamples. -/

/-- A well-formed judgment object with all three required fields. -/
def goodObj : JObj :=
  [("score", .jint 4), ("tag", .jstr "time-series"), ("justification", .jstr "relevant")]

/-- The malformed response of the specification's scenario: a JSON body
with only a score and no tag or justification. -/
def incompleteObj : JObj := [("score", .jint 5)]

/-- A judgment object whose score is outside the 1-5 range but which has
all three required fields. -/
def outOfRangeObj : JObj :=
  [("score", .jint 7), ("tag", .jstr "weird"), ("justification", .jstr "because")]

/-- A well-formed judgment object whose tag is not in the configured
tag set. -/
def unknownTagObj : JObj :=
  [("score", .jint 5), ("tag", .jstr "quantum"), ("justification", .jstr "q")]

/-- A client whose every call raises before the cache is written. -/
def clientFail : Client := fun _ => .failure

/-- A client whose every call returns the well-formed judgment. -/
def clientGood : Client := fun _ => .parsed goodObj

/-- A client whose every call parses to the score-only object. -/
def clientIncomplete : Client := fun _ => .parsed incompleteObj

/-- A client that fails on its first two calls and then returns the
well-formed judgment. -/
def clientAfterTwo : Client := fun i => if i < 2 then .failure else .parsed goodObj

/-- A client whose every call returns the out-of-range-score object. -/
def clientOutOfRange : Client := fun _ => .parsed outOfRangeObj

/-- A client whose every call returns the unknown-tag object. -/
def clientUnknownTag : Client := fun _ => .parsed unknownTagObj

/-! Shared lemmas about the retry-wrapped classifier. -/

/-- When the cache is set, one body execution returns it with no model
call. -/
lemma attemptOnce_cacheHit (client : Client) (s : RunState) (o : JObj)
    (h : s.cache = some o) :
    attemptOnce client s = (⟨some o, s.calls, s.attempts + 1⟩, some o) := by
  rcases s with ⟨c, n, a⟩
  simp only at h
  subst h
  rfl

/-- When the cache is set, an access to `_interest_analysis` succeeds on
the first attempt, with no model call, returning the cached object. -/
lemma interestAnalysis_cacheHit (client : Client) (s : RunState) (o : JObj)
    (h : s.cache = some o) :
    interestAnalysis client s = (⟨some o, s.calls, s.attempts + 1⟩, .success o) := by
  simp [interestAnalysis, retryGo, attemptOnce_cacheHit client s o h]

/-- A body execution that returns an object leaves that object in the
cache. -/
lemma attemptOnce_some_cache {client : Client} {s s' : RunState} {o : JObj}
    (h : attemptOnce client s = (s', some o)) : s'.cache = some o := by
  rcases s with ⟨c, n, a⟩
  rcases c with _ | o0
  · simp only [attemptOnce] at h
    rcases hc : client n with _ | o1 <;> simp only [hc] at h
    · simp at h
    · by_cases hk : hasRequiredKeys o1 = true
      · rw [if_pos hk] at h
        injection h with hs hr
        rw [← hs]
        simpa using hr
      · rw [if_neg hk] at h
        injection h with hs hr
        exact absurd hr (by simp)
  · simp only [attemptOnce] at h
    injection h with hs hr
    rw [← hs]
    simpa using hr

/-- A successful retry loop leaves the returned object in the cache. -/
lemma retryGo_success_cache {client : Client} {o : JObj} :
    ∀ {fuel : Nat} {s s' : RunState},
      retryGo client s fuel = (s', .success o) → s'.cache = some o := by
  intro fuel
  induction fuel with
  | zero => intro s s' h; simp [retryGo] at h
  | succ n ih =>
    intro s s' h
    rw [retryGo] at h
    rcases ha : attemptOnce client s with ⟨s1, r⟩
    rw [ha] at h
    rcases r with _ | o1
    · exact ih h
    · obtain ⟨h1, h2⟩ := by simpa using h
      subst h1
      obtain rfl : o1 = o := by simpa using h2
      exact attemptOnce_some_cache ha

/-- A successful access to `_interest_analysis` leaves the returned
object in the cache. -/
lemma interestAnalysis_success_cache {client : Client} {s s' : RunState} {o : JObj}
    (h : interestAnalysis client s = (s', .success o)) : s'.cache = some o :=
  retryGo_success_cache h

/-- With an empty cache, a call that parses with all three keys present
succeeds on that attempt, consuming one model call. -/
lemma firstSuccess (client : Client) (o : JObj) (c a : Nat)
    (h0 : client c = .parsed o) (hk : hasRequiredKeys o = true) :
    interestAnalysis client ⟨none, c, a⟩ = (⟨some o, c + 1, a + 1⟩, .success o) := by
  simp [interestAnalysis, retryGo, attemptOnce, h0, hk]

/-- A failing call with an empty cache consumes one attempt of the
budget and one model call, leaving the cache empty. -/
lemma retryGo_failStep (client : Client) (fuel c a : Nat)
    (hf : client c = .failure) :
    retryGo client ⟨none, c, a⟩ (fuel + 1) = retryGo client ⟨none, c + 1, a + 1⟩ fuel := by
  simp [retryGo, attemptOnce, hf]

/-- Skipping `n` consecutive failing calls: `n` attempts of the budget
and `n` model calls are consumed, and the cache stays empty. -/
lemma retryGo_skip (client : Client) :
    ∀ (n fuel c a : Nat), (∀ i, i < n → client (c + i) = .failure) →
      retryGo client ⟨none, c, a⟩ (n + fuel) = retryGo client ⟨none, c + n, a + n⟩ fuel := by
  intro n
  induction n with
  | zero => intro fuel c a _; simp
  | succ m ih =>
    intro fuel c a h
    have h0 : client c = .failure := by simpa using h 0 (Nat.succ_pos m)
    have hrest : ∀ i, i < m → client (c + 1 + i) = .failure := by
      intro i hi
      have := h (i + 1) (by omega)
      simpa [Nat.add_comm, Nat.add_left_comm, Nat.add_assoc] using this
    have harith : m + 1 + fuel = (m + fuel) + 1 := by omega
    rw [harith, retryGo_failStep client (m + fuel) c a h0, ih fuel (c + 1) (a + 1) hrest]
    have hc : c + 1 + m = c + (m + 1) := by omega
    have ha2 : a + 1 + m = a + (m + 1) := by omega
    rw [hc, ha2]

/-- A client that always raises exhausts the whole budget: 5 attempts,
5 model calls, then `ClassificationError`, with the cache still empty. -/
lemma allFail (client : Client) (h : ∀ i, client i = .failure) (c a : Nat) :
    interestAnalysis client ⟨none, c, a⟩ = (⟨none, c + 5, a + 5⟩, .classificationError) := by
  have h5 : ∀ i, i < 5 → client (c + i) = .failure := fun i _ => h (c + i)
  have := retryGo_skip client 5 0 c a h5
  simpa [interestAnalysis, retryGo] using this

/-- C1: behavior of the code at the claim's failing input. When every
model call parses as JSON but lacks required fields (the body
`{"score": 5}`), the code does NOT make 5 attempts and raise
`ClassificationError` as the claim states: the first attempt writes the
incomplete object to the cache before the key check raises, the second
attempt returns the cached object as a success, so the judgment is
obtained after 2 attempts and exactly 1 model call, the incomplete
response becomes the accepted judgment, and `interest_tag` then raises a
`KeyError` outside the retry wrapper. -/
theorem incomplete_response_cached_not_retried :
    interestAnalysis clientIncomplete initState
        = (⟨some incompleteObj, 1, 2⟩, .success incompleteObj) ∧
    interest_score clientIncomplete initState
        = (⟨some incompleteObj, 1, 2⟩, .value (.jint 5)) ∧
    interest_tag clientIncomplete initState
        = (⟨some incompleteObj, 1, 2⟩, .keyError) := by
  decide

/-- C2: if the model client fails on its first `N` calls
(transport error or unparseable response) with `N < 5` and returns a
well-formed judgment on call `N + 1`, then obtaining the judgment
succeeds with that judgment and the client is called exactly `N + 1`
times (in `N + 1` attempts). -/
theorem retry_succeeds_after_failures (N : Nat) (hN : N < 5) (client : Client) (o : JObj)
    (hfail : ∀ i, i < N → client i = .failure) (hsucc : client N = .parsed o)
    (hk : hasRequiredKeys o = true) :
    interestAnalysis client initState = (⟨some o, N + 1, N + 1⟩, .success o) := by
  have hskip := retryGo_skip client N (5 - N) 0 0 (by intro i hi; simpa using hfail i hi)
  have h5 : N + (5 - N) = 5 := by omega
  rw [h5] at hskip
  have hsub : 5 - N = (4 - N) + 1 := by omega
  rw [show initState = (⟨none, 0, 0⟩ : RunState) from rfl, interestAnalysis, hskip, hsub,
    retryGo]
  simp [attemptOnce, hsucc, hk]

/-- Witness for C2 at `N = 2`: a client failing twice and then returning
the well-formed judgment yields that judgment with exactly 3 calls. -/
theorem retry_succeeds_after_failures_witness :
    interestAnalysis clientAfterTwo initState = (⟨some goodObj, 3, 3⟩, .success goodObj) :=
  retry_succeeds_after_failures 2 (by decide) clientAfterTwo goodObj (by decide) (by decide)
    (by decide)

/-- C3: if every model call fails with an exception before anything is
cached, obtaining the judgment makes exactly 5 attempts (5 model calls,
1 initial + 4 retries) and raises `ClassificationError`; the call
counter 5 in the final state shows no 6th call is made. -/
theorem all_failures_five_attempts (client : Client) (h : ∀ i, client i = .failure) :
    interestAnalysis client initState = (⟨none, 5, 5⟩, .classificationError) := by
  simpa using allFail client h 0 0

/-- Witness for C3 at the always-failing client. -/
theorem all_failures_five_attempts_witness :
    interestAnalysis clientFail initState = (⟨none, 5, 5⟩, .classificationError) :=
  all_failures_five_attempts clientFail (fun _ => rfl)

/-- If the cache holds an object, any sequence of accessor invocations
leaves the model-call count and the cache unchanged. -/
lemma accessMany_cacheHit (cl2 : Client) (o : JObj) :
    ∀ (ks : List String) (s : RunState), s.cache = some o →
      (accessMany ks cl2 s).calls = s.calls ∧ (accessMany ks cl2 s).cache = some o := by
  intro ks
  induction ks with
  | nil => intro s h; exact ⟨rfl, h⟩
  | cons k ks ih =>
    intro s h
    have hstep : (access k cl2 s).1 = ⟨some o, s.calls, s.attempts + 1⟩ := by
      simp [access, interestAnalysis_cacheHit cl2 s o h]
    have hrest := ih ⟨some o, s.calls, s.attempts + 1⟩ rfl
    simpa [accessMany, hstep] using hrest

/-- C6: once a paper's judgment has been computed successfully, every
later access to `interest_score`, `interest_tag` or
`interest_justification` — under any model behavior `cl2`, and any
number of times — reads the cached object and makes no further model
call: the call counter stays at its value from the single computation. -/
theorem memoized_no_further_calls (client cl2 : Client) (s s' : RunState) (o : JObj)
    (h : interestAnalysis client s = (s', .success o)) :
    interest_score cl2 s' = (⟨some o, s'.calls, s'.attempts + 1⟩, accessResult o "score") ∧
    interest_tag cl2 s' = (⟨some o, s'.calls, s'.attempts + 1⟩, accessResult o "tag") ∧
    interest_justification cl2 s'
        = (⟨some o, s'.calls, s'.attempts + 1⟩, accessResult o "justification") ∧
    ∀ ks : List String,
      (accessMany ks cl2 s').calls = s'.calls ∧ (accessMany ks cl2 s').cache = some o := by
  have hc : s'.cache = some o := interestAnalysis_success_cache h
  have hac : ∀ k, access k cl2 s' = (⟨some o, s'.calls, s'.attempts + 1⟩, accessResult o k) := by
    intro k
    simp [access, interestAnalysis_cacheHit cl2 s' o hc]
  exact ⟨hac "score", hac "tag", hac "justification",
    fun ks => accessMany_cacheHit cl2 o ks s' hc⟩

/-- Witness for C6: after `clientGood` judges a paper in one call, a
further `interest_tag` access and a run of all three accessors (under a
client that would fail if called) leave the call counter at 1. -/
theorem memoized_no_further_calls_witness :
    interest_tag clientFail ⟨some goodObj, 1, 1⟩
        = (⟨some goodObj, 1, 2⟩, accessResult goodObj "tag") ∧
    (accessMany ["score", "tag", "justification"] clientFail ⟨some goodObj, 1, 1⟩).calls = 1 :=
  ⟨(memoized_no_further_calls clientGood clientFail initState ⟨some goodObj, 1, 1⟩ goodObj
      (by decide)).2.1,
   ((memoized_no_further_calls clientGood clientFail initState ⟨some goodObj, 1, 1⟩ goodObj
      (by decide)).2.2.2 ["score", "tag", "justification"]).1⟩

/-- C10: once a parsed response sits in the cache, no later judgment
access makes another model call, even when the cached object lacks
required fields — the judgment access succeeds with the cached object
and `interest_tag` raises a `KeyError` outside the retry wrapper; and
for a fresh paper whose client always returns an object missing the tag
field, the cache is written by the single model call of the first
attempt and the second attempt returns the incomplete cached object as
a success instead of re-querying the model. -/
theorem cache_write_once_incomplete (client cl2 : Client) (s : RunState) (o : JObj)
    (hc : s.cache = some o) (hmiss : jget o "tag" = none)
    (hall : ∀ i, cl2 i = .parsed o) :
    interestAnalysis client s = (⟨some o, s.calls, s.attempts + 1⟩, .success o) ∧
    interest_tag client s = (⟨some o, s.calls, s.attempts + 1⟩, .keyError) ∧
    ∀ c a : Nat, interestAnalysis cl2 ⟨none, c, a⟩ = (⟨some o, c + 1, a + 2⟩, .success o) := by
  have h1 := interestAnalysis_cacheHit client s o hc
  refine ⟨h1, ?_, ?_⟩
  · simp [interest_tag, access, h1, accessResult, hmiss]
  · intro c a
    have hk : hasRequiredKeys o = false := by simp [hasRequiredKeys, hmiss]
    simp [interestAnalysis, retryGo, attemptOnce, hall, hk]

/-- Witness for C10: a paper with the score-only object cached answers
from the cache with no model call under an always-failing client, its
`interest_tag` raises `KeyError`, and a fresh paper whose client always
returns the score-only object ends with one call, two attempts and the
incomplete object accepted. -/
theorem cache_write_once_incomplete_witness :
    interestAnalysis clientFail ⟨some incompleteObj, 3, 1⟩
        = (⟨some incompleteObj, 3, 2⟩, .success incompleteObj) ∧
    interest_tag clientFail ⟨some incompleteObj, 3, 1⟩
        = (⟨some incompleteObj, 3, 2⟩, .keyError) ∧
    interestAnalysis clientIncomplete ⟨none, 0, 0⟩
        = (⟨some incompleteObj, 1, 2⟩, .success incompleteObj) := by
  have h := cache_write_once_incomplete clientFail clientIncomplete ⟨some incompleteObj, 3, 1⟩
    incompleteObj rfl (by decide) (fun _ => rfl)
  exact ⟨h.1, h.2.1, h.2.2 0 0⟩

/-! Lemmas about the `defaultdict` grouping and the aggregation loop. -/

/-- Appending under key `t` extends the group at `t` by one element. -/
lemma groupOf_addToGroup_same {κ β : Type} [DecidableEq κ]
    (gs : List (κ × List β)) (t : κ) (p : β) :
    groupOf (addToGroup gs t p) t = groupOf gs t ++ [p] := by
  induction gs with
  | nil => simp [addToGroup, groupOf]
  | cons g gs ih =>
    rcases g with ⟨u, l⟩
    by_cases h : u = t
    · subst h; simp [addToGroup, groupOf]
    · simp [addToGroup, groupOf, h, ih]

/-- Appending under key `u` leaves every other group unchanged. -/
lemma groupOf_addToGroup_ne {κ β : Type} [DecidableEq κ]
    (gs : List (κ × List β)) (u t : κ) (p : β) (h : u ≠ t) :
    groupOf (addToGroup gs u p) t = groupOf gs t := by
  induction gs with
  | nil => simp [addToGroup, groupOf, h]
  | cons g gs ih =>
    rcases g with ⟨w, l⟩
    by_cases hw : w = u
    · subst hw; simp [addToGroup, groupOf, h]
    · by_cases hwt : w = t
      · subst hwt; simp [addToGroup, groupOf, hw]
      · simp [addToGroup, groupOf, hw, hwt, ih]

/-- The group the aggregation loop builds at tag `t` is exactly the feed
filtered for score above the threshold with that tag, in feed order. -/
lemma groupOf_aggregate_foldl (t : String) :
    ∀ (ps : List JudgedPaper) (gs : List (String × List JudgedPaper)),
      groupOf (ps.foldl (fun gs p => if 3 < p.score then addToGroup gs p.tag p else gs) gs) t
        = groupOf gs t ++ ps.filter (fun p => decide (3 < p.score ∧ p.tag = t)) := by
  intro ps
  induction ps with
  | nil => intro gs; simp
  | cons p ps ih =>
    intro gs
    simp only [List.foldl_cons, List.filter_cons]
    by_cases h1 : 3 < p.score
    · by_cases h2 : p.tag = t
      · subst h2
        rw [if_pos h1, ih, groupOf_addToGroup_same]
        simp [h1]
      · rw [if_pos h1, ih, groupOf_addToGroup_ne _ _ _ _ h2]
        simp [h2]
    · rw [if_neg h1, ih]
      simp [h1]

/-- Specialization to the loop of lines 254-257 started from the empty
`defaultdict`. -/
lemma groupOf_aggregate (ps : List JudgedPaper) (t : String) :
    groupOf (aggregate ps) t = ps.filter (fun p => decide (3 < p.score ∧ p.tag = t)) := by
  simpa [groupOf] using groupOf_aggregate_foldl t ps []

/-- A key of the extended mapping is a key of the old mapping or the key
just inserted. -/
lemma mem_keys_addToGroup {κ β : Type} [DecidableEq κ]
    {gs : List (κ × List β)} {t u : κ} {p : β}
    (h : u ∈ (addToGroup gs t p).map Prod.fst) : u ∈ gs.map Prod.fst ∨ u = t := by
  induction gs with
  | nil => simpa [addToGroup] using h
  | cons g gs ih =>
    rcases g with ⟨w, l⟩
    by_cases hw : w = t
    · subst hw
      simp only [addToGroup, if_pos rfl, List.map_cons] at h
      exact Or.inl (by simpa using h)
    · simp only [addToGroup, if_neg hw, List.map_cons, List.mem_cons] at h
      rcases h with h | h
      · exact Or.inl (List.mem_cons.mpr (Or.inl h))
      · rcases ih h with h2 | h2
        · exact Or.inl (List.mem_cons.mpr (Or.inr h2))
        · exact Or.inr h2

/-- Appending to a `defaultdict(list)` keeps its keys distinct. -/
lemma nodup_keys_addToGroup {κ β : Type} [DecidableEq κ]
    {gs : List (κ × List β)} (t : κ) (p : β)
    (h : (gs.map Prod.fst).Nodup) : ((addToGroup gs t p).map Prod.fst).Nodup := by
  induction gs with
  | nil => simp [addToGroup]
  | cons g gs ih =>
    rcases g with ⟨w, l⟩
    rw [List.map_cons] at h
    rcases List.nodup_cons.mp h with ⟨hw2, hnd⟩
    by_cases hw : w = t
    · subst hw
      simp only [addToGroup, if_pos rfl, List.map_cons]
      exact List.nodup_cons.mpr ⟨hw2, hnd⟩
    · simp only [addToGroup, if_neg hw, List.map_cons]
      refine List.nodup_cons.mpr ⟨?_, ih hnd⟩
      intro hmem
      rcases mem_keys_addToGroup hmem with h2 | h2
      · exact hw2 h2
      · exact hw h2

/-- The aggregation loop yields a mapping with distinct tag keys. -/
lemma nodup_keys_aggregate (ps : List JudgedPaper) :
    ((aggregate ps).map Prod.fst).Nodup := by
  suffices h : ∀ (ps : List JudgedPaper) (gs : List (String × List JudgedPaper)),
      (gs.map Prod.fst).Nodup →
      ((ps.foldl (fun gs p => if 3 < p.score then addToGroup gs p.tag p else gs) gs).map
        Prod.fst).Nodup from h ps [] (by simp)
  intro ps
  induction ps with
  | nil => intro gs h; simpa using h
  | cons p ps ih =>
    intro gs h
    simp only [List.foldl_cons]
    by_cases h1 : 3 < p.score
    · rw [if_pos h1]; exact ih _ (nodup_keys_addToGroup _ _ h)
    · rw [if_neg h1]; exact ih _ h

/-- In a mapping with distinct keys, a member pair is recovered by
lookup of its key. -/
lemma groupOf_eq_of_mem {κ β : Type} [DecidableEq κ]
    {gs : List (κ × List β)} {t : κ} {l : List β}
    (hnd : (gs.map Prod.fst).Nodup) (h : (t, l) ∈ gs) : groupOf gs t = l := by
  induction gs with
  | nil => simp at h
  | cons g gs ih =>
    rcases g with ⟨w, m⟩
    rw [List.map_cons] at hnd
    rcases List.nodup_cons.mp hnd with ⟨hw2, hnd2⟩
    rcases List.mem_cons.mp h with h1 | h1
    · injection h1 with h2 h3
      subst h2; subst h3
      simp [groupOf]
    · have hwt : w ≠ t := by
        intro he; subst he
        exact hw2 (List.mem_map.mpr ⟨(w, l), h1, rfl⟩)
      simp only [groupOf, if_neg hwt]
      exact ih hnd2 h1

/-- A nonempty lookup result is an actual entry of the mapping. -/
lemma mem_of_groupOf_ne_nil {κ β : Type} [DecidableEq κ]
    {gs : List (κ × List β)} {t : κ}
    (h : groupOf gs t ≠ []) : (t, groupOf gs t) ∈ gs := by
  induction gs with
  | nil => simp [groupOf] at h
  | cons g gs ih =>
    rcases g with ⟨w, m⟩
    by_cases hw : w = t
    · subst hw; simp [groupOf]
    · simp only [groupOf, if_neg hw] at h ⊢
      exact List.mem_cons.mpr (Or.inr (ih h))

/-- Counting lemma: in a duplicate-free list where exactly one element
satisfies the predicate, the count is one. -/
lemma countP_eq_one_of_unique {α : Type} {l : List α} {q : α → Bool} {x : α}
    (hnd : l.Nodup) (hx : x ∈ l) (hq : q x = true)
    (huniq : ∀ y ∈ l, q y = true → y = x) : l.countP q = 1 := by
  induction l with
  | nil => simp at hx
  | cons a l ih =>
    rcases List.nodup_cons.mp hnd with ⟨ha, hnd2⟩
    rcases List.mem_cons.mp hx with rfl | hx2
    · have h0 : l.countP q = 0 := by
        rw [List.countP_eq_zero]
        intro b hb hqb
        exact ha (huniq b (List.mem_cons.mpr (Or.inr hb)) hqb ▸ hb)
      simp [List.countP_cons, hq, h0]
    · have hqa : q a = false := by
        by_contra hqa
        have hax : a = x := huniq a (List.mem_cons.mpr (Or.inl rfl)) (by simpa using hqa)
        subst hax
        exact ha hx2
      have hrec := ih hnd2 hx2 (fun y hy hqy => huniq y (List.mem_cons.mpr (Or.inr hy)) hqy)
      simp [List.countP_cons, hqa, hrec]

/-- C4: the aggregation loop retains a paper exactly when its judged
score is strictly greater than the threshold 3; a retained paper lies in
the group looked up at its judged tag, exactly one group of the mapping
contains it, and any group containing it is keyed by its tag; a paper
with score at most 3 lies in no group. -/
theorem aggregate_threshold_groups (ps : List JudgedPaper) (p : JudgedPaper) (hp : p ∈ ps) :
    (3 < p.score →
      p ∈ groupOf (aggregate ps) p.tag ∧
      (aggregate ps).countP (fun g => decide (p ∈ g.2)) = 1 ∧
      ∀ g ∈ aggregate ps, p ∈ g.2 → g.1 = p.tag) ∧
    (p.score ≤ 3 → ∀ g ∈ aggregate ps, p ∉ g.2) := by
  constructor
  · intro hscore
    have hmem : p ∈ groupOf (aggregate ps) p.tag := by
      rw [groupOf_aggregate]
      exact List.mem_filter.mpr ⟨hp, by simp [hscore]⟩
    have hgroups : ∀ g ∈ aggregate ps, p ∈ g.2 →
        g = (p.tag, groupOf (aggregate ps) p.tag) := by
      intro g hg hpg
      rcases g with ⟨u, m⟩
      have hm : groupOf (aggregate ps) u = m :=
        groupOf_eq_of_mem (nodup_keys_aggregate ps) hg
      have hpu : p ∈ groupOf (aggregate ps) u := hm ▸ hpg
      rw [groupOf_aggregate] at hpu
      have htag : p.tag = u := by
        have h2 := (List.mem_filter.mp hpu).2
        simp at h2
        exact h2.2
      subst htag
      rw [hm]
    refine ⟨hmem, ?_, fun g hg hpg => congrArg Prod.fst (hgroups g hg hpg)⟩
    have hne : groupOf (aggregate ps) p.tag ≠ [] := by
      intro he; rw [he] at hmem; simp at hmem
    refine countP_eq_one_of_unique (List.Nodup.of_map Prod.fst (nodup_keys_aggregate ps))
      (mem_of_groupOf_ne_nil hne) (by simpa using hmem) ?_
    intro y hy hqy
    exact hgroups y hy (by simpa using hqy)
  · intro hscore g hg hpg
    rcases g with ⟨u, m⟩
    have hm : groupOf (aggregate ps) u = m :=
      groupOf_eq_of_mem (nodup_keys_aggregate ps) hg
    have hpu : p ∈ groupOf (aggregate ps) u := hm ▸ hpg
    rw [groupOf_aggregate] at hpu
    have h2 := (List.mem_filter.mp hpu).2
    simp at h2
    obtain ⟨h3, -⟩ := h2
    omega

/-- The concrete 3-paper feed of the specification's scenario. -/
def paperA : JudgedPaper := ⟨0, 5, "time-series"⟩

/-- Paper B of the specification's scenario: score 2, excluded. -/
def paperB : JudgedPaper := ⟨1, 2, "time-series"⟩

/-- Paper C of the specification's scenario: score 4, tag causality. -/
def paperC : JudgedPaper := ⟨2, 4, "causality"⟩

/-- The feed of the specification's concrete scenario, in feed order. -/
def feed3 : List JudgedPaper := [paperA, paperB, paperC]

/-- Witness for C4 on the specification's scenario: paper A (score 5)
is in the group at its tag and exactly one group contains it; paper B
(score 2) is in no group. -/
theorem aggregate_threshold_groups_witness :
    (paperA ∈ groupOf (aggregate feed3) "time-series" ∧
      (aggregate feed3).countP (fun g => decide (paperA ∈ g.2)) = 1) ∧
    ∀ g ∈ aggregate feed3, paperB ∉ g.2 := by
  have hA := (aggregate_threshold_groups feed3 paperA (by decide)).1 (by decide)
  have hB := (aggregate_threshold_groups feed3 paperB (by decide)).2 (by decide)
  exact ⟨⟨hA.1, hA.2.1⟩, hB⟩

/-! Lemmas about the stable descending sort of `html_report`. -/

/-- Membership in a stable insertion. -/
lemma mem_insertDesc {p q : JudgedPaper} :
    ∀ {l : List JudgedPaper}, q ∈ insertDesc p l ↔ q = p ∨ q ∈ l := by
  intro l
  induction l with
  | nil => simp [insertDesc]
  | cons r rs ih =>
    by_cases h : r.score ≤ p.score
    · simp [insertDesc, h]
    · simp [insertDesc, h, ih]
      tauto

/-- Stable insertion preserves the non-increasing-score invariant. -/
lemma pairwise_insertDesc {p : JudgedPaper} :
    ∀ {l : List JudgedPaper}, l.Pairwise (fun a b => b.score ≤ a.score) →
      (insertDesc p l).Pairwise (fun a b => b.score ≤ a.score) := by
  intro l
  induction l with
  | nil => intro _; simp [insertDesc]
  | cons q qs ih =>
    intro h
    rcases List.pairwise_cons.mp h with ⟨hq, hqs⟩
    by_cases hle : q.score ≤ p.score
    · rw [insertDesc, if_pos hle]
      refine List.pairwise_cons.mpr ⟨?_, h⟩
      intro b hb
      rcases List.mem_cons.mp hb with rfl | hb2
      · exact hle
      · exact le_trans (hq b hb2) hle
    · rw [insertDesc, if_neg hle]
      refine List.pairwise_cons.mpr ⟨?_, ih hqs⟩
      intro b hb
      rcases mem_insertDesc.mp hb with rfl | hb2
      · omega
      · exact hq b hb2

/-- The sorted list has non-increasing scores. -/
lemma pairwise_sortDesc (l : List JudgedPaper) :
    (sortDesc l).Pairwise (fun a b => b.score ≤ a.score) := by
  induction l with
  | nil => simp [sortDesc]
  | cons p ps ih => rw [sortDesc]; exact pairwise_insertDesc ih

/-- Inserting an element commutes with filtering by an exact score: the
inserted element lands in front of the equal-score elements already
present (every element it is placed behind has a strictly greater
score). -/
lemma filter_insertDesc (s : Int) (p : JudgedPaper) :
    ∀ (l : List JudgedPaper),
      (insertDesc p l).filter (fun q => decide (q.score = s))
        = if p.score = s then p :: l.filter (fun q => decide (q.score = s))
          else l.filter (fun q => decide (q.score = s)) := by
  intro l
  induction l with
  | nil => by_cases h : p.score = s <;> simp [insertDesc, h]
  | cons q qs ih =>
    by_cases hle : q.score ≤ p.score
    · rw [insertDesc, if_pos hle]
      by_cases h : p.score = s <;> simp [List.filter_cons, h]
    · rw [insertDesc, if_neg hle]
      rw [List.filter_cons, List.filter_cons, ih]
      by_cases h : p.score = s
      · have hq : ¬ q.score = s := by omega
        simp [h, hq]
      · simp [h]

/-- Stability of the sort: filtering the sorted list by any exact score
yields the same sequence as filtering the input, so elements of equal
score keep their original relative order. -/
lemma filter_sortDesc (s : Int) :
    ∀ (l : List JudgedPaper),
      (sortDesc l).filter (fun q => decide (q.score = s))
        = l.filter (fun q => decide (q.score = s)) := by
  intro l
  induction l with
  | nil => rfl
  | cons p ps ih =>
    rw [sortDesc, filter_insertDesc, ih, List.filter_cons]
    by_cases h : p.score = s <;> simp [h]

/-- Fusing the group filter with the exact-score filter. -/
lemma filter_filter_spec (t : String) (s : Int) :
    ∀ (ps : List JudgedPaper),
      (ps.filter (fun p => decide (3 < p.score ∧ p.tag = t))).filter
          (fun p => decide (p.score = s))
        = ps.filter (fun p => decide (p.score = s ∧ 3 < p.score ∧ p.tag = t)) := by
  intro ps
  rw [List.filter_filter]
  apply List.filter_congr
  intro p _
  simp

/-- C5: within the rendered tag group of every tag, adjacent papers have
non-increasing scores, and for every score value the papers of that
score appear exactly as in the original feed (stability, with feed order
as the tie-breaker). -/
theorem renderedGroup_sorted_stable (ps : List JudgedPaper) (t : String) :
    List.Chain' (fun a b => b.score ≤ a.score) (renderedGroup ps t) ∧
    ∀ s : Int,
      (renderedGroup ps t).filter (fun p => decide (p.score = s))
        = ps.filter (fun p => decide (p.score = s ∧ 3 < p.score ∧ p.tag = t)) := by
  constructor
  · exact (pairwise_sortDesc _).chain'
  · intro s
    rw [renderedGroup, filter_sortDesc, groupOf_aggregate, filter_filter_spec]

/-! Claims about the end-to-end run. -/

/-- Counterexample for C7: a response whose score is the out-of-range
integer 7 (not in 1-5) but which carries all three fields is accepted as
the paper's judgment on the very first attempt (1 call, 1 attempt, no
retry), and the paper does contribute to the ReportModel, appearing in
the report's groups — refuting the claim that such a response is
treated as a parse failure and never becomes the accepted judgment. -/
theorem out_of_range_score_accepted :
    interestAnalysis clientOutOfRange initState
        = (⟨some outOfRangeObj, 1, 1⟩, .success outOfRangeObj) ∧
    runMain [clientOutOfRange] = (1, .report [(.jstr "weird", [0])]) := by
  decide

/-- C7 amended: a model response is validated only for the presence of
the three required fields; score range and type are not checked, so any
response with the three fields present — out-of-range or non-integer
score included — is accepted as the judgment on the first attempt, and
an integer score above 3 contributes the paper to the ReportModel. -/
theorem keys_only_validation (client : Client) (o : JObj)
    (hall : ∀ i, client i = .parsed o) (hk : hasRequiredKeys o = true) :
    interestAnalysis client initState = (⟨some o, 1, 1⟩, .success o) ∧
    ∀ (n : Int) (t : JValue), jget o "score" = some (.jint n) → 3 < n →
      jget o "tag" = some t → runMain [client] = (1, .report [(t, [0])]) := by
  have h1 : interestAnalysis client initState = (⟨some o, 1, 1⟩, .success o) := by
    simpa using firstSuccess client o 0 0 (hall 0) hk
  refine ⟨h1, ?_⟩
  intro n t hscore hn htag
  simp [runMain, aggLoop, classifyStep, h1, hscore, hn, htag, addToGroup]

/-- A judgment object whose score field is a string, not an integer. -/
def stringScoreObj : JObj :=
  [("score", .jstr "high"), ("tag", .jstr "causality"), ("justification", .jstr "j")]

/-- A client whose every call returns the string-score object. -/
def clientStringScore : Client := fun _ => .parsed stringScoreObj

/-- Witness for the amended C7: a response whose score is a string is
accepted as the paper's judgment on the first attempt, since only key
presence is validated. -/
theorem keys_only_validation_witness :
    interestAnalysis clientStringScore initState
        = (⟨some stringScoreObj, 1, 1⟩, .success stringScoreObj) :=
  (keys_only_validation clientStringScore stringScoreObj (fun _ => rfl) (by decide)).1

/-- A client whose every call raises never classifies its paper: the
loop body raises `ClassificationError` after retry exhaustion. -/
lemma classifyStep_allFail (bad : Client) (h : ∀ i, bad i = .failure) :
    classifyStep bad = .err := by
  simp [classifyStep, initState, allFail bad h 0 0]

/-- The aggregation loop stops at the first paper whose classification
raises: it attempts exactly the papers up to and including that one and
aborts. -/
lemma aggLoop_abort (bad : Client) (hbad : classifyStep bad = .err) :
    ∀ (pre post : List Client) (idx : Nat) (gs : List (JValue × List Nat)),
      (∀ c ∈ pre, classifyStep c ≠ .err) →
      aggLoop (pre ++ bad :: post) idx gs = (idx + pre.length + 1, .aborted) := by
  intro pre
  induction pre with
  | nil =>
    intro post idx gs _
    simp [aggLoop, hbad]
  | cons c cs ih =>
    intro post idx gs hpre
    have hc : classifyStep c ≠ .err := hpre c (List.mem_cons.mpr (Or.inl rfl))
    have hpre2 : ∀ c2 ∈ cs, classifyStep c2 ≠ .err :=
      fun c2 hc2 => hpre c2 (List.mem_cons.mpr (Or.inr hc2))
    rcases hstep : classifyStep c with r | _
    · rcases r with _ | ⟨t, o⟩
      · simp only [List.cons_append, aggLoop, hstep, List.append_eq]
        rw [ih post (idx + 1) gs hpre2]
        simp only [Prod.mk.injEq, List.length_cons]
        exact ⟨by omega, trivial⟩
      · simp only [List.cons_append, aggLoop, hstep, List.append_eq]
        rw [ih post (idx + 1) (addToGroup gs t idx) hpre2]
        simp only [Prod.mk.injEq, List.length_cons]
        exact ⟨by omega, trivial⟩
    · exact absurd hstep hc

/-- C8: when classification of one paper fails after retry exhaustion
(its client always raises) and every paper before it classifies without
an uncaught exception, the run attempts exactly the papers up to and
including the failing one — none of the later papers is classified —
and aborts without producing a report. -/
theorem classification_failure_aborts_run (pre post : List Client) (bad : Client)
    (hpre : ∀ c ∈ pre, classifyStep c ≠ .err) (hbad : ∀ i, bad i = .failure) :
    runMain (pre ++ bad :: post) = (pre.length + 1, .aborted) := by
  simpa [runMain] using
    aggLoop_abort bad (classifyStep_allFail bad hbad) pre post 0 [] hpre

/-- Witness for C8: with a good paper, then a paper whose client always
fails, then another good paper, the run attempts 2 classifications and
aborts with no report. -/
theorem classification_failure_aborts_run_witness :
    runMain [clientGood, clientFail, clientGood] = (2, .aborted) :=
  classification_failure_aborts_run [clientGood] [clientGood] clientFail
    (by intro c hc; rw [List.mem_singleton] at hc; subst hc; decide) (fun _ => rfl)

/-- C9: a well-formed response whose tag is not among the configured
tags (time-series, causality, llm-agents) is silently accepted: the run
completes without error, the paper is grouped under the unrecognized
tag, and that tag becomes a section of the report. -/
theorem unrecognized_tag_new_section (client : Client) (o : JObj) (t : String) (n : Int)
    (hall : ∀ i, client i = .parsed o)
    (hscore : jget o "score" = some (.jint n)) (hn : 3 < n)
    (htag : jget o "tag" = some (.jstr t))
    (hjust : (jget o "justification").isSome = true)
    (_hunk : t ∉ configuredTags) :
    runMain [client] = (1, .report [(.jstr t, [0])]) ∧
    reportSections [(.jstr t, [0])] = [.jstr t] := by
  have hk : hasRequiredKeys o = true := by
    simp [hasRequiredKeys, hscore, htag, hjust]
  have h1 : interestAnalysis client initState = (⟨some o, 1, 1⟩, .success o) := by
    simpa using firstSuccess client o 0 0 (hall 0) hk
  constructor
  · simp [runMain, aggLoop, classifyStep, h1, hscore, hn, htag, addToGroup]
  · rfl

/-- Witness for C9 at the tag "quantum", which is not a configured
tag: the paper lands in a new "quantum" section of the report. -/
theorem unrecognized_tag_new_section_witness :
    runMain [clientUnknownTag] = (1, .report [(.jstr "quantum", [0])]) ∧
    reportSections [(.jstr "quantum", [0])] = [.jstr "quantum"] :=
  unrecognized_tag_new_section clientUnknownTag unknownTagObj "quantum" 5 (fun _ => rfl)
    (by decide) (by decide) (by decide) (by decide) (by decide)

end ArxivWatcher
